import Mathlib

/-!
# Verification of the epidemic-simulation core

Shallow embedding, in Lean 4, of the two simulation engines of the
repository (a Streamlit UI around them):

* `src/ui_basic.py` — the compartmental SIRV ODE right-hand side with an
  environment-modulated transmission rate (`virus_survival_factor`,
  `mobility_factor`, `effective_beta`, `sirv_ode`).
* `src/ui_advance.py` — the discrete-time stochastic network SIR process
  (`initialize_network`, `run_simulation`).

Real-number arithmetic of the Python source is embedded over `ℚ` (exact
field arithmetic; the source's guarantees under scrutiny are algebraic
identities, not rounding behaviour).  Python's global `random` generator
is embedded as an explicit stream of uniform draws threaded through the
computation (`Rng`), and the two library-provided randomized procedures
(`networkx.erdos_renyi_graph`, `random.sample`) are taken as explicit
function parameters, constrained only by the properties the library
documents (node set `0..n-1`; `k` distinct elements of the population or
failure when the population is too small).

Python dictionaries (per-node state maps) are embedded as insertion-ordered
association lists: `dset` updates the first matching key in place or
appends, exactly the dict assignment semantics the source relies on.
-/

/-- Node health state: the tri-state `'S' | 'I' | 'R'` the source stores in
its per-node status dictionaries. -/
inductive HState where
  | S : HState
  | I : HState
  | R : HState
deriving DecidableEq, Repr

/-- A per-node state map: an insertion-ordered association list embedding a
Python `dict` from node id to health state. -/
abbrev Status := List (Nat × HState)

/-- Dictionary lookup: the value at the first matching key, `none` when the
key is absent (a `KeyError` site in Python; the source only reads present
keys). -/
def dget : Status → Nat → Option HState
  | [], _ => none
  | (k', v') :: rest, k => if k' = k then some v' else dget rest k

/-- Dictionary assignment `d[k] = v`: replaces the first binding of `k` in
place, or appends a new binding at the end — Python dict semantics
(insertion order preserved, updates in place). -/
def dset : Status → Nat → HState → Status
  | [], k, v => [(k, v)]
  | (k', v') :: rest, k, v =>
      if k' = k then (k, v) :: rest else (k', v') :: dset rest k v

/-- The key list (Python `dict` iteration order). -/
def dkeys (m : Status) : List Nat := m.map Prod.fst

/-- The number of nodes a state map sends to state `s` (the source's
`sum(1 for v in status.values() if v==s)`). -/
def countState (m : Status) (s : HState) : Nat :=
  (m.filter (fun p => p.2 = s)).length

/-- A contact graph: node list plus adjacency lists, embedding the
`networkx` graph interface the source uses (`G.nodes()`, `G.neighbors`). -/
structure Graph where
  nodes : List Nat
  adj : Nat → List Nat

/-- The explicit random source: a stream of uniform draws together with a
cursor, embedding the sequence of `random.random()` results the source
consumes from Python's global generator. -/
structure Rng where
  stream : Nat → ℚ
  idx : Nat

/-- Consume one uniform draw (`random.random()`). -/
def Rng.next (r : Rng) : ℚ × Rng :=
  (r.stream r.idx, ⟨r.stream, r.idx + 1⟩)

/-! ## CompartmentalODEEngine (src/ui_basic.py) -/

/-- The immutable parameter bundle of the ODE model (`params` dict of
src/ui_basic.py, lines 54-62). -/
structure Params where
  base_beta : ℚ
  gamma : ℚ
  vaccine_efficacy : ℚ
  temperature_c : ℚ
  mobility_index : ℚ
  T0 : ℚ
  alpha : ℚ

/-- Embedding of `virus_survival_factor` (src/ui_basic.py, lines 28-29):
`1 + alpha * max(0, T0 - temperature_c)`. -/
def virus_survival_factor (temperature_c T0 alpha : ℚ) : ℚ :=
  1 + alpha * max 0 (T0 - temperature_c)

/-- Embedding of `mobility_factor` (src/ui_basic.py, lines 31-32): the identity. -/
def mobility_factor (mobility_index : ℚ) : ℚ := mobility_index

/-- Embedding of `effective_beta` (src/ui_basic.py, lines 34-35). -/
def effective_beta (base_beta temp mob T0 alpha : ℚ) : ℚ :=
  base_beta * virus_survival_factor temp T0 alpha * mobility_factor mob

/-- Embedding of `sirv_ode` (src/ui_basic.py, lines 37-50): the SIRV right-hand side
`(dSu, dSv, dI, dR)` at state `y = (Su, Sv, I, R)`. -/
def sirv_ode (_t : ℚ) (y : ℚ × ℚ × ℚ × ℚ) (p : Params) : ℚ × ℚ × ℚ × ℚ :=
  let Su := y.1
  let Sv := y.2.1
  let I := y.2.2.1
  let R := y.2.2.2
  let N := Su + Sv + I + R
  let beta := effective_beta p.base_beta p.temperature_c p.mobility_index p.T0 p.alpha
  let lambda_u := beta * I / N
  let lambda_v := lambda_u * (1 - p.vaccine_efficacy)
  (-lambda_u * Su, -lambda_v * Sv, lambda_u * Su + lambda_v * Sv - p.gamma * I, p.gamma * I)

/-- A concrete parameter bundle, used to instantiate universally quantified
theorems at a specific input. -/
def paramsEx : Params :=
  { base_beta := 3/10, gamma := 1/10, vaccine_efficacy := 4/5,
    temperature_c := 0, mobility_index := 1, T0 := 10, alpha := 1/20 }

/-! ## NetworkEpidemicEngine (src/ui_advance.py) -/

/-- Python `int()` on a rational: truncation toward zero. -/
def ratTrunc (q : ℚ) : ℤ :=
  if 0 ≤ q then ⌊q⌋ else ⌈q⌉

/-- Embedding of `initialize_network` (src/ui_advance.py, lines 20-26).

The two randomized library calls are explicit parameters:
* `gen n p` stands for `networkx.erdos_renyi_graph(n, p)` (the node set is
  `range(n)`; `networkx` raises no error for `p` outside `[0,1]` — `p ≥ 1`
  yields the complete graph and `p ≤ 0` the empty graph);
* `sample pop k` stands for `random.sample(pop, k)`, which returns `k`
  distinct elements of `pop` or raises `ValueError` (`none` here) when the
  population has fewer than `k` elements.

The infected count is `max(1, int(init_frac * n))` — Python `int()`
truncates toward zero. -/
def init_network (gen : Nat → ℚ → Graph) (sample : List Nat → Nat → Option (List Nat))
    (n : Nat) (p : ℚ) (init_frac : ℚ) : Option (Graph × Status) :=
  let G := gen n p
  let status : Status := G.nodes.map (fun node => (node, HState.S))
  match sample G.nodes (max 1 (ratTrunc (init_frac * n))).toNat with
  | none => none
  | some infected =>
      some (G, infected.foldl (fun st node => dset st node HState.I) status)

/-- The body of the inner `for nbr in G.neighbors(node)` loop of
`run_simulation` (src/ui_advance.py, lines 42-44):
`if curr[nbr] == 'S' and random.random() < beta: new[nbr] = 'I'`.
The Python `and` short-circuits, so a draw is consumed only for
currently-Susceptible neighbors. -/
def infectFold (curr : Status) (beta : ℚ) (acc2 : Status × Rng) (nbr : Nat) : Status × Rng :=
  if dget curr nbr = some HState.S then
    let e := Rng.next acc2.2
    if e.1 < beta then (dset acc2.1 nbr HState.I, e.2) else (acc2.1, e.2)
  else acc2

/-- One iteration of the outer `for node in G.nodes()` loop of
`run_simulation` (src/ui_advance.py, lines 35-44): reads the frozen `curr`,
updates the accumulating `new` map and the random source.  An Infected node
first draws for recovery; only if recovery does not fire does it run the
transmission loop over its neighbors. -/
def stepNode (G : Graph) (curr : Status) (beta gamma : ℚ)
    (acc : Status × Rng) (node : Nat) : Status × Rng :=
  if dget curr node = some HState.I then
    let d := Rng.next acc.2
    if d.1 < gamma then (dset acc.1 node HState.R, d.2)
    else (G.adj node).foldl (infectFold curr beta) (acc.1, d.2)
  else acc

/-- One full stochastic step of `run_simulation` (src/ui_advance.py,
lines 34-45): `new = curr.copy()` then the loop over all nodes, every
decision read from the frozen `curr`. -/
def stepOnce (G : Graph) (curr : Status) (beta gamma : ℚ) (rng : Rng) : Status × Rng :=
  G.nodes.foldl (stepNode G curr beta gamma) (curr, rng)

/-- The iteration loop of `run_simulation`: `m` remaining iterations, each
appending the current snapshot and then stepping. -/
def runLoop (G : Graph) (beta gamma : ℚ) : Nat → Status → Rng → List Status
  | 0, _, _ => []
  | Nat.succ m, curr, rng =>
      let res := stepOnce G curr beta gamma rng
      curr :: runLoop G beta gamma m res.1 res.2

/-- Embedding of `run_simulation` (src/ui_advance.py, lines 29-46): the
loop `for t in range((max_steps + 1)*5)` appends the current snapshot and
replaces it by the freshly built next map. -/
def run_simulation (G : Graph) (status0 : Status) (beta gamma : ℚ)
    (max_steps : Nat) (rng : Rng) : List Status :=
  runLoop G beta gamma ((max_steps + 1) * 5) status0 rng

/-- Iterate of the stochastic step: `step` applied `i` times from a state and random source (the reference
iterate the spec describes the history elements by). -/
def stepIter (G : Graph) (beta gamma : ℚ) : Nat → Status × Rng → Status × Rng
  | 0, sr => sr
  | Nat.succ m, sr => stepIter G beta gamma m (stepOnce G sr.1 beta gamma sr.2)

/-- Standard rounding of a rational to the nearest integer, written from
the spec's words `round(init_infected_fraction * n)` for comparison with
the source's truncation. -/
def roundSpec (q : ℚ) : ℤ := ⌊q + 1/2⌋

/-! ### Concrete instances used by witnesses and counterexamples -/

/-- A concrete admissible graph generator: nodes `0..n-1` (as
`networkx.erdos_renyi_graph` guarantees), one concrete edge outcome. -/
def genRange (n : Nat) (_p : ℚ) : Graph :=
  ⟨List.range n, fun _ => []⟩

/-- A concrete admissible sampler: the first `k` elements of the
population, or failure when the population is smaller than `k` (as
`random.sample` raises `ValueError`). -/
def sampleFirst (pop : List Nat) (k : Nat) : Option (List Nat) :=
  if k ≤ pop.length then some (pop.take k) else none

/-- A concrete random source: every draw is `0`, the smallest value of the
half-open unit interval `random.random()` draws from. -/
def rngZero : Rng := ⟨fun _ => 0, 0⟩

/-- A concrete two-node graph with one edge, used to instantiate the
network theorems. -/
def graph2 : Graph :=
  ⟨[0, 1], fun v => if v = 0 then [1] else if v = 1 then [0] else []⟩

/-- A concrete initial state on `graph2`: node 0 Infected, node 1
Susceptible. -/
def status2 : Status := [(0, HState.I), (1, HState.S)]

/-- Position of a health state along the monotone lifecycle
`Susceptible → Infected → Recovered`. -/
def stRank : HState → Nat
  | HState.S => 0
  | HState.I => 1
  | HState.R => 2

/-- Pointwise lifecycle order on state maps: every binding of `a` is still
present in `b`, at the same or a later lifecycle stage. -/
def statusLe (a b : Status) : Prop :=
  ∀ k v, dget a k = some v → ∃ w, dget b k = some w ∧ stRank v ≤ stRank w

/-- Invariant of the outer node loop of one stochastic step: with `l` the
nodes still to process, every key of the accumulating `new` map either is
unchanged from the frozen `curr`, or has recovered (`I` to `R`, already
processed), or has been infected (`S` to `I`) by some already-processed
node `v` that was Infected in `curr` and is still Infected in `new`. -/
def stepInv (G : Graph) (curr : Status) (l : List Nat) (m : Status) : Prop :=
  ∀ k,
    dget m k = dget curr k ∨
    (dget curr k = some HState.I ∧ dget m k = some HState.R ∧ k ∉ l) ∨
    (dget curr k = some HState.S ∧ dget m k = some HState.I ∧
      ∃ v, v ∈ G.nodes ∧ k ∈ G.adj v ∧ v ∉ l ∧
        dget curr v = some HState.I ∧ dget m v = some HState.I)

/-! ## Verified properties -/

/-- C5: the four components of `sirv_ode` sum to zero — population
conservation at the derivative level — for every state with nonzero total
population and every parameter set. -/
theorem sirv_ode_conserves_population (t Su Sv I R : ℚ) (p : Params)
    (hN : Su + Sv + I + R ≠ 0) :
    (sirv_ode t (Su, Sv, I, R) p).1 + (sirv_ode t (Su, Sv, I, R) p).2.1 +
      (sirv_ode t (Su, Sv, I, R) p).2.2.1 + (sirv_ode t (Su, Sv, I, R) p).2.2.2 = 0 := by
  simp only [sirv_ode]
  ring

/-- Witness for C5: conservation holds at a concrete state and parameter
set with total population 2. -/
theorem sirv_ode_conserves_population_witness :
    (1 : ℚ) + 0 + 1 + 0 ≠ 0 ∧
      (sirv_ode 0 (1, 0, 1, 0) paramsEx).1 + (sirv_ode 0 (1, 0, 1, 0) paramsEx).2.1 +
        (sirv_ode 0 (1, 0, 1, 0) paramsEx).2.2.1 + (sirv_ode 0 (1, 0, 1, 0) paramsEx).2.2.2 = 0 :=
  ⟨by norm_num, sirv_ode_conserves_population 0 1 0 1 0 paramsEx (by norm_num)⟩

/-- C6: with `I = 0` (and nonzero remaining population), `sirv_ode`
returns `(0, 0, 0, 0)`: the disease-free state is a fixed point for every
parameter set and every other compartment value. -/
theorem sirv_ode_disease_free_fixed_point (t Su Sv I R : ℚ) (p : Params)
    (hI : I = 0) (hN : Su + Sv + R ≠ 0) :
    sirv_ode t (Su, Sv, I, R) p = (0, 0, 0, 0) := by
  subst hI
  simp only [sirv_ode, Prod.mk.injEq]
  norm_num

/-- Witness for C6: the disease-free fixed point at a concrete state. -/
theorem sirv_ode_disease_free_fixed_point_witness :
    (0 : ℚ) = 0 ∧ (5 : ℚ) + 3 + 2 ≠ 0 ∧
      sirv_ode 1 (5, 3, 0, 2) paramsEx = (0, 0, 0, 0) :=
  ⟨rfl, by norm_num,
    sirv_ode_disease_free_fixed_point 1 5 3 0 2 paramsEx rfl (by norm_num)⟩

/-- C7: `virus_survival_factor` equals
`1 + sensitivity * max(0, T0 - temperature)`, and whenever the temperature
is at or above the reference temperature the factor is exactly `1`, for
any sensitivity value. -/
theorem virus_survival_factor_formula (temperature_c T0 alpha : ℚ) :
    virus_survival_factor temperature_c T0 alpha
        = 1 + alpha * max 0 (T0 - temperature_c) ∧
      (T0 ≤ temperature_c → virus_survival_factor temperature_c T0 alpha = 1) := by
  refine ⟨rfl, fun h => ?_⟩
  unfold virus_survival_factor
  rw [max_eq_left (by linarith)]
  ring

/-- Witness for C7: the temperature floor at a concrete temperature above
reference, with nonzero sensitivity. -/
theorem virus_survival_factor_formula_witness :
    (10 : ℚ) ≤ 25 ∧ virus_survival_factor 25 10 7 = 1 :=
  ⟨by norm_num, (virus_survival_factor_formula 25 10 7).2 (by norm_num)⟩

/-! ### Dictionary lemmas -/

lemma dget_dset_self (m : Status) (k : Nat) (v : HState) :
    dget (dset m k v) k = some v := by
  induction m with
  | nil => simp [dset, dget]
  | cons p rest ih =>
    obtain ⟨k', v'⟩ := p
    by_cases h : k' = k
    · simp [dset, h, dget]
    · simp [dset, h, dget, ih]

lemma dget_dset_ne (m : Status) (k k' : Nat) (v : HState) (h : k' ≠ k) :
    dget (dset m k v) k' = dget m k' := by
  induction m with
  | nil =>
    have hk : ¬k = k' := fun e => h e.symm
    simp [dset, dget, hk]
  | cons p rest ih =>
    obtain ⟨a, b⟩ := p
    by_cases ha : a = k
    · subst ha
      have hak : ¬a = k' := fun e => h e.symm
      simp [dset, dget, hak]
    · simp only [dset, if_neg ha, dget]
      by_cases ha' : a = k'
      · simp [ha']
      · simp [ha', ih]

lemma mem_dkeys_of_dget {m : Status} {k : Nat} {v : HState}
    (h : dget m k = some v) : k ∈ dkeys m := by
  induction m with
  | nil => simp [dget] at h
  | cons p rest ih =>
    obtain ⟨a, b⟩ := p
    by_cases ha : a = k
    · simp [dkeys, ha]
    · simp only [dget, if_neg ha] at h
      simp [dkeys] at ih ⊢
      exact Or.inr (ih h)

lemma dkeys_dset_mem {m : Status} {k : Nat} (v : HState) (h : k ∈ dkeys m) :
    dkeys (dset m k v) = dkeys m := by
  induction m with
  | nil => simp [dkeys] at h
  | cons p rest ih =>
    obtain ⟨a, b⟩ := p
    by_cases ha : a = k
    · simp [dset, ha, dkeys]
    · simp only [dkeys, List.map_cons] at h
      simp only [dset, if_neg ha, dkeys, List.map_cons]
      rcases List.mem_cons.1 h with h1 | h1
      · exact absurd h1.symm ha
      · have h2 := ih h1
        simp only [dkeys] at h2
        rw [h2]

/-! ### History shape (claim C1) -/

lemma runLoop_length (G : Graph) (beta gamma : ℚ) :
    ∀ (m : Nat) (s : Status) (r : Rng), (runLoop G beta gamma m s r).length = m := by
  intro m
  induction m with
  | zero => intro s r; rfl
  | succ m ih =>
    intro s r
    simp only [runLoop, List.length_cons, ih]

lemma runLoop_getElem (G : Graph) (beta gamma : ℚ) :
    ∀ (m i : Nat) (s : Status) (r : Rng), i < m →
      (runLoop G beta gamma m s r)[i]? = some (stepIter G beta gamma i (s, r)).1 := by
  intro m
  induction m with
  | zero => intro i s r h; exact absurd h (Nat.not_lt_zero i)
  | succ m ih =>
    intro i s r h
    cases i with
    | zero => simp [runLoop, stepIter]
    | succ i =>
      simp only [runLoop, List.getElem?_cons_succ]
      rw [ih i _ _ (Nat.lt_of_succ_lt_succ h)]
      rfl

/-- Counterexample to C1 as stated: at `num_steps = 0` the history has 5
snapshots, not `num_steps + 1 = 1` — the source iterates
`range((max_steps + 1) * 5)` times. -/
theorem run_simulation_length_counterexample :
    (run_simulation graph2 status2 1 0 0 rngZero).length ≠ 0 + 1 := by
  rw [run_simulation, runLoop_length]
  decide

/-- C1 (amended): `run_simulation` returns a fully materialized history of
length `(num_steps + 1) * 5`, whose element 0 is the initial state and
whose element `i` is the result of applying the stochastic step `i` times
to the initial state (threading the random source). -/
theorem run_simulation_history_shape (G : Graph) (s : Status) (beta gamma : ℚ)
    (n : Nat) (r : Rng) :
    (run_simulation G s beta gamma n r).length = (n + 1) * 5 ∧
      (run_simulation G s beta gamma n r)[0]? = some s ∧
      ∀ i, i < (n + 1) * 5 →
        (run_simulation G s beta gamma n r)[i]? = some (stepIter G beta gamma i (s, r)).1 := by
  refine ⟨runLoop_length G beta gamma _ s r, ?_, fun i hi => runLoop_getElem G beta gamma _ i s r hi⟩
  have h0 := runLoop_getElem G beta gamma ((n + 1) * 5) 0 s r (by positivity)
  simpa [stepIter] using h0

/-- Witness for C1 (amended): on a concrete two-node run, snapshot 3 is the
triple-stepped initial state and the history has 5 entries. -/
theorem run_simulation_history_shape_witness :
    3 < (0 + 1) * 5 ∧
      (run_simulation graph2 status2 1 0 0 rngZero)[3]? =
        some (stepIter graph2 1 0 3 (status2, rngZero)).1 :=
  ⟨by norm_num,
    (run_simulation_history_shape graph2 status2 1 0 0 rngZero).2.2 3 (by norm_num)⟩

/-! ### Lifecycle monotonicity (claim C8) -/

lemma statusLe_refl (a : Status) : statusLe a a :=
  fun k v h => ⟨v, h, le_refl _⟩

lemma statusLe_trans {a b c : Status} (h1 : statusLe a b) (h2 : statusLe b c) :
    statusLe a c := by
  intro k v h
  obtain ⟨w, hw, hvw⟩ := h1 k v h
  obtain ⟨x, hx, hwx⟩ := h2 k w hw
  exact ⟨x, hx, le_trans hvw hwx⟩

lemma statusLe_dset {curr m : Status} (hm : statusLe curr m) {x : Nat} {vx : HState}
    (hx : dget curr x = some vx) {w : HState} (hw : stRank vx ≤ stRank w) :
    statusLe curr (dset m x w) := by
  intro k v hk
  by_cases hkx : k = x
  · subst hkx
    rw [hk] at hx
    obtain rfl := Option.some.inj hx
    exact ⟨w, dget_dset_self m k w, hw⟩
  · rw [dget_dset_ne m x k w hkx]
    exact hm k v hk

lemma statusLe_infectFold (curr : Status) (beta : ℚ) (adjl : List Nat) :
    ∀ acc : Status × Rng, statusLe curr acc.1 →
      statusLe curr ((adjl.foldl (infectFold curr beta) acc)).1 := by
  induction adjl with
  | nil => intro acc h; exact h
  | cons nbr rest ih =>
    intro acc h
    simp only [List.foldl_cons]
    apply ih
    unfold infectFold
    by_cases hS : dget curr nbr = some HState.S
    · simp only [hS, if_pos rfl, if_true]
      by_cases hb : (Rng.next acc.2).1 < beta
      · simp only [if_pos hb]
        exact statusLe_dset h hS (by simp [stRank])
      · simp only [if_neg hb]
        exact h
    · simp only [if_neg hS]
      exact h

lemma statusLe_stepNode (G : Graph) (curr : Status) (beta gamma : ℚ) (node : Nat) :
    ∀ acc : Status × Rng, statusLe curr acc.1 →
      statusLe curr (stepNode G curr beta gamma acc node).1 := by
  intro acc h
  unfold stepNode
  by_cases hI : dget curr node = some HState.I
  · simp only [hI, if_pos rfl, if_true]
    by_cases hg : (Rng.next acc.2).1 < gamma
    · simp only [if_pos hg]
      exact statusLe_dset h hI (by simp [stRank])
    · simp only [if_neg hg]
      exact statusLe_infectFold curr beta (G.adj node) (acc.1, (Rng.next acc.2).2) h
  · simp only [if_neg hI]
    exact h

lemma statusLe_foldNodes (G : Graph) (curr : Status) (beta gamma : ℚ) :
    ∀ (l : List Nat) (acc : Status × Rng), statusLe curr acc.1 →
      statusLe curr ((l.foldl (stepNode G curr beta gamma) acc)).1 := by
  intro l
  induction l with
  | nil => intro acc h; exact h
  | cons u rest ih =>
    intro acc h
    simp only [List.foldl_cons]
    exact ih _ (statusLe_stepNode G curr beta gamma u acc h)

lemma statusLe_stepOnce (G : Graph) (curr : Status) (beta gamma : ℚ) (r : Rng) :
    statusLe curr (stepOnce G curr beta gamma r).1 :=
  statusLe_foldNodes G curr beta gamma G.nodes (curr, r) (statusLe_refl curr)

lemma runLoop_head_le (G : Graph) (beta gamma : ℚ) :
    ∀ (m : Nat) (s : Status) (r : Rng) (j : Nat) (hj : Status),
      (runLoop G beta gamma m s r)[j]? = some hj → statusLe s hj := by
  intro m
  induction m with
  | zero => intro s r j hj h; simp [runLoop] at h
  | succ m ih =>
    intro s r j hj h
    cases j with
    | zero =>
      simp only [runLoop, List.getElem?_cons_zero, Option.some.injEq] at h
      subst h
      exact statusLe_refl _
    | succ j =>
      simp only [runLoop, List.getElem?_cons_succ] at h
      exact statusLe_trans (statusLe_stepOnce G s beta gamma r) (ih _ _ j hj h)

lemma runLoop_chain (G : Graph) (beta gamma : ℚ) :
    ∀ (m : Nat) (s : Status) (r : Rng) (i j : Nat) (hi hj : Status), i ≤ j →
      (runLoop G beta gamma m s r)[i]? = some hi →
      (runLoop G beta gamma m s r)[j]? = some hj → statusLe hi hj := by
  intro m
  induction m with
  | zero => intro s r i j hi hj hij h1 h2; simp [runLoop] at h1
  | succ m ih =>
    intro s r i j hi hj hij h1 h2
    cases i with
    | zero =>
      simp only [runLoop, List.getElem?_cons_zero, Option.some.injEq] at h1
      subst h1
      exact runLoop_head_le G beta gamma (m + 1) _ r j hj h2
    | succ i =>
      cases j with
      | zero => exact absurd hij (by omega)
      | succ j =>
        simp only [runLoop, List.getElem?_cons_succ] at h1 h2
        exact ih _ _ i j hi hj (Nat.le_of_succ_le_succ hij) h1 h2

/-- C8: along any history produced by `run_simulation`, node states are
monotone in the lifecycle `Susceptible → Infected → Recovered`: a node
Recovered in some snapshot is Recovered in every later snapshot, and a node
Infected in some snapshot is never Susceptible in a later snapshot. -/
theorem run_simulation_monotone (G : Graph) (s : Status) (beta gamma : ℚ)
    (n : Nat) (r : Rng) (i j : Nat) (hij : i ≤ j) (hi hj : Status)
    (h1 : (run_simulation G s beta gamma n r)[i]? = some hi)
    (h2 : (run_simulation G s beta gamma n r)[j]? = some hj) (k : Nat) :
    (dget hi k = some HState.R → dget hj k = some HState.R) ∧
      (dget hi k = some HState.I → dget hj k ≠ some HState.S) := by
  have hle : statusLe hi hj :=
    runLoop_chain G beta gamma ((n + 1) * 5) s r i j hi hj hij h1 h2
  constructor
  · intro hR
    obtain ⟨w, hw, hrank⟩ := hle k HState.R hR
    cases w with
    | S => simp [stRank] at hrank
    | I => simp [stRank] at hrank
    | R => exact hw
  · intro hI hS
    obtain ⟨w, hw, hrank⟩ := hle k HState.I hI
    rw [hw] at hS
    obtain rfl := Option.some.inj hS
    simp [stRank] at hrank

/-- Witness for C8: on a concrete two-node run with certain transmission
and no recovery, node 0 is Infected in snapshot 0 and not Susceptible in
snapshot 1. -/
theorem run_simulation_monotone_witness :
    (0 : Nat) ≤ 1 ∧ dget [(0, HState.I), (1, HState.I)] 0 ≠ some HState.S :=
  ⟨Nat.zero_le 1,
    (run_simulation_monotone graph2 status2 1 0 0 rngZero 0 1 (Nat.zero_le 1)
        status2 [(0, HState.I), (1, HState.I)] (by decide) (by decide) 0).2 (by decide)⟩

/-! ### Domain preservation and discrete population count (claim C10) -/

lemma dkeys_infectFold (curr : Status) (beta : ℚ) (adjl : List Nat) :
    ∀ acc : Status × Rng, dkeys acc.1 = dkeys curr →
      dkeys ((adjl.foldl (infectFold curr beta) acc)).1 = dkeys curr := by
  induction adjl with
  | nil => intro acc h; exact h
  | cons nbr rest ih =>
    intro acc h
    simp only [List.foldl_cons]
    apply ih
    unfold infectFold
    by_cases hS : dget curr nbr = some HState.S
    · simp only [hS, if_pos rfl, if_true]
      by_cases hb : (Rng.next acc.2).1 < beta
      · simp only [if_pos hb]
        have hmem : nbr ∈ dkeys acc.1 := by
          rw [h]; exact mem_dkeys_of_dget hS
        rw [dkeys_dset_mem HState.I hmem, h]
      · simp only [if_neg hb]; exact h
    · simp only [if_neg hS]; exact h

lemma dkeys_stepNode (G : Graph) (curr : Status) (beta gamma : ℚ) (node : Nat) :
    ∀ acc : Status × Rng, dkeys acc.1 = dkeys curr →
      dkeys (stepNode G curr beta gamma acc node).1 = dkeys curr := by
  intro acc h
  unfold stepNode
  by_cases hI : dget curr node = some HState.I
  · simp only [hI, if_pos rfl, if_true]
    by_cases hg : (Rng.next acc.2).1 < gamma
    · simp only [if_pos hg]
      have hmem : node ∈ dkeys acc.1 := by
        rw [h]; exact mem_dkeys_of_dget hI
      rw [dkeys_dset_mem HState.R hmem, h]
    · simp only [if_neg hg]
      exact dkeys_infectFold curr beta (G.adj node) (acc.1, (Rng.next acc.2).2) h
  · simp only [if_neg hI]; exact h

lemma dkeys_stepOnce (G : Graph) (curr : Status) (beta gamma : ℚ) (r : Rng) :
    dkeys (stepOnce G curr beta gamma r).1 = dkeys curr := by
  unfold stepOnce
  have main : ∀ (l : List Nat) (acc : Status × Rng), dkeys acc.1 = dkeys curr →
      dkeys ((l.foldl (stepNode G curr beta gamma) acc)).1 = dkeys curr := by
    intro l
    induction l with
    | nil => intro acc h; exact h
    | cons u rest ih =>
      intro acc h
      simp only [List.foldl_cons]
      exact ih _ (dkeys_stepNode G curr beta gamma u acc h)
  exact main G.nodes (curr, r) rfl

lemma runLoop_mem_keys (G : Graph) (beta gamma : ℚ) :
    ∀ (m : Nat) (s : Status) (r : Rng) (h : Status),
      h ∈ runLoop G beta gamma m s r → dkeys h = dkeys s := by
  intro m
  induction m with
  | zero => intro s r h hm; simp [runLoop] at hm
  | succ m ih =>
    intro s r h hm
    simp only [runLoop, List.mem_cons] at hm
    rcases hm with rfl | hm
    · rfl
    · rw [ih _ _ h hm, dkeys_stepOnce]

lemma countState_total (m : Status) :
    countState m HState.S + countState m HState.I + countState m HState.R = m.length := by
  induction m with
  | nil => rfl
  | cons p rest ih =>
    obtain ⟨a, b⟩ := p
    simp only [countState, List.filter_cons] at ih ⊢
    cases b <;> simp <;> omega

/-- C10: every snapshot of a `run_simulation` history has exactly the
graph's node set as its key set (no node is added or removed), so the
counts of Susceptible, Infected and Recovered nodes always sum to the
number of nodes. -/
theorem run_simulation_snapshot_domain (G : Graph) (s : Status) (beta gamma : ℚ)
    (n : Nat) (r : Rng) (hkeys : dkeys s = G.nodes) :
    ∀ h ∈ run_simulation G s beta gamma n r,
      dkeys h = G.nodes ∧
        countState h HState.S + countState h HState.I + countState h HState.R
          = G.nodes.length := by
  intro h hm
  have hk : dkeys h = G.nodes := by
    rw [runLoop_mem_keys G beta gamma ((n + 1) * 5) s r h hm, hkeys]
  refine ⟨hk, ?_⟩
  have hlen : h.length = G.nodes.length := by
    rw [← hk]
    simp [dkeys]
  rw [countState_total, hlen]

/-- Witness for C10: on a concrete two-node run the initial snapshot is in
the history, keeps the node set `[0, 1]`, and its S/I/R counts sum to 2. -/
theorem run_simulation_snapshot_domain_witness :
    dkeys status2 = graph2.nodes ∧
      dkeys status2 = graph2.nodes ∧
        countState status2 HState.S + countState status2 HState.I +
            countState status2 HState.R = graph2.nodes.length :=
  ⟨by decide,
    run_simulation_snapshot_domain graph2 status2 1 0 0 rngZero (by decide)
      status2 (by decide)⟩

/-! ### Frozen-snapshot step semantics (claim C9) -/

lemma infectFold_one (curr : Status) (beta : ℚ) (acc : Status × Rng) (nbr k : Nat) :
    dget (infectFold curr beta acc nbr).1 k = dget acc.1 k ∨
      (dget curr k = some HState.S ∧ k = nbr ∧
        dget (infectFold curr beta acc nbr).1 k = some HState.I) := by
  unfold infectFold
  by_cases hS : dget curr nbr = some HState.S
  · simp only [hS, if_pos rfl, if_true]
    by_cases hb : (Rng.next acc.2).1 < beta
    · simp only [if_pos hb]
      by_cases hk : k = nbr
      · subst hk
        exact Or.inr ⟨hS, rfl, dget_dset_self _ _ _⟩
      · exact Or.inl (dget_dset_ne _ _ _ _ hk)
    · simp only [if_neg hb]
      left
      trivial
  · simp only [if_neg hS]
    left
    trivial

lemma infectFold_effect (curr : Status) (beta : ℚ) (adjl : List Nat) :
    ∀ (acc : Status × Rng) (k : Nat),
      dget ((adjl.foldl (infectFold curr beta) acc)).1 k = dget acc.1 k ∨
        (dget curr k = some HState.S ∧ k ∈ adjl ∧
          dget ((adjl.foldl (infectFold curr beta) acc)).1 k = some HState.I) := by
  induction adjl with
  | nil => intro acc k; exact Or.inl rfl
  | cons nbr rest ih =>
    intro acc k
    simp only [List.foldl_cons]
    rcases ih (infectFold curr beta acc nbr) k with h | ⟨hS, hmem, hI⟩
    · rcases infectFold_one curr beta acc nbr k with h1 | ⟨hS, hk, hI⟩
      · exact Or.inl (by rw [h, h1])
      · exact Or.inr ⟨hS, by simp [hk], by rw [h, hI]⟩
    · exact Or.inr ⟨hS, List.mem_cons_of_mem _ hmem, hI⟩

lemma stepInv_weaken {G : Graph} {curr : Status} {u : Nat} {rest : List Nat} {m : Status}
    (h : stepInv G curr (u :: rest) m) : stepInv G curr rest m := by
  intro k
  rcases h k with h1 | ⟨h1, h2, h3⟩ | ⟨h1, h2, v, hv1, hv2, hv3, hv4, hv5⟩
  · exact Or.inl h1
  · exact Or.inr (Or.inl ⟨h1, h2, fun hx => h3 (List.mem_cons_of_mem _ hx)⟩)
  · exact Or.inr (Or.inr ⟨h1, h2, v, hv1, hv2,
      fun hx => hv3 (List.mem_cons_of_mem _ hx), hv4, hv5⟩)

lemma stepInv_stepNode (G : Graph) (curr : Status) (beta gamma : ℚ) (u : Nat)
    (rest : List Nat) (hu : u ∉ rest) (acc : Status × Rng)
    (hinv : stepInv G curr (u :: rest) acc.1) (huG : u ∈ G.nodes) :
    stepInv G curr rest (stepNode G curr beta gamma acc u).1 := by
  unfold stepNode
  by_cases hI : dget curr u = some HState.I
  · simp only [hI, if_pos rfl, if_true]
    by_cases hg : (Rng.next acc.2).1 < gamma
    · -- recovery fires: the single update `new[u] = 'R'`
      simp only [if_pos hg]
      intro k
      by_cases hk : k = u
      · subst hk
        exact Or.inr (Or.inl ⟨hI, dget_dset_self _ _ _, hu⟩)
      · have heq : dget (dset acc.1 u HState.R) k = dget acc.1 k :=
          dget_dset_ne _ _ _ _ hk
        rcases hinv k with h1 | ⟨h1, h2, h3⟩ | ⟨h1, h2, v, hv1, hv2, hv3, hv4, hv5⟩
        · exact Or.inl (by rw [heq, h1])
        · exact Or.inr (Or.inl ⟨h1, by rw [heq, h2],
            fun hx => h3 (List.mem_cons_of_mem _ hx)⟩)
        · have hvu : ¬v = u := fun e => hv3 (e ▸ List.mem_cons_self _ _)
          exact Or.inr (Or.inr ⟨h1, by rw [heq, h2], v, hv1, hv2,
            fun hx => hv3 (List.mem_cons_of_mem _ hx), hv4,
            by rw [dget_dset_ne _ _ _ _ hvu, hv5]⟩)
    · -- recovery does not fire: the transmission loop over `G.adj u`
      simp only [if_neg hg]
      have haccu : dget acc.1 u = some HState.I := by
        rcases hinv u with h1 | ⟨h1, h2, h3⟩ | ⟨h1, h2, v, hv⟩
        · rw [h1, hI]
        · exact absurd (List.mem_cons_self u rest) h3
        · rw [h1] at hI; exact absurd hI (by simp)
      have hresu :
          dget (((G.adj u).foldl (infectFold curr beta) (acc.1, (Rng.next acc.2).2))).1 u
            = some HState.I := by
        rcases infectFold_effect curr beta (G.adj u) (acc.1, (Rng.next acc.2).2) u with
          h1 | ⟨h1, h2, h3⟩
        · rw [h1]; exact haccu
        · rw [h1] at hI; exact absurd hI (by simp)
      intro k
      rcases infectFold_effect curr beta (G.adj u) (acc.1, (Rng.next acc.2).2) k with
        heq | ⟨hS, hmem, hInew⟩
      · rcases hinv k with h1 | ⟨h1, h2, h3⟩ | ⟨h1, h2, v, hv1, hv2, hv3, hv4, hv5⟩
        · exact Or.inl (by rw [heq, h1])
        · exact Or.inr (Or.inl ⟨h1, by rw [heq, h2],
            fun hx => h3 (List.mem_cons_of_mem _ hx)⟩)
        · have hvI :
              dget (((G.adj u).foldl (infectFold curr beta)
                  (acc.1, (Rng.next acc.2).2))).1 v = some HState.I := by
            rcases infectFold_effect curr beta (G.adj u) (acc.1, (Rng.next acc.2).2) v with
              hv6 | ⟨hv6, hv7, hv8⟩
            · rw [hv6, hv5]
            · rw [hv6] at hv4; exact absurd hv4 (by simp)
          exact Or.inr (Or.inr ⟨h1, by rw [heq, h2], v, hv1, hv2,
            fun hx => hv3 (List.mem_cons_of_mem _ hx), hv4, hvI⟩)
      · exact Or.inr (Or.inr ⟨hS, hInew, u, huG, hmem, hu, hI, hresu⟩)
  · simp only [if_neg hI]
    exact stepInv_weaken hinv

lemma stepInv_foldNodes (G : Graph) (curr : Status) (beta gamma : ℚ) :
    ∀ (l : List Nat), (∀ x ∈ l, x ∈ G.nodes) → l.Nodup →
      ∀ acc : Status × Rng, stepInv G curr l acc.1 →
        stepInv G curr [] ((l.foldl (stepNode G curr beta gamma) acc)).1 := by
  intro l
  induction l with
  | nil => intro _ _ acc h; exact h
  | cons u rest ih =>
    intro hsub hnd acc hinv
    simp only [List.foldl_cons]
    exact ih (fun x hx => hsub x (List.mem_cons_of_mem _ hx)) (List.nodup_cons.1 hnd).2 _
      (stepInv_stepNode G curr beta gamma u rest (List.nodup_cons.1 hnd).1 acc hinv
        (hsub u (List.mem_cons_self _ _)))

lemma stepOnce_char (G : Graph) (curr : Status) (beta gamma : ℚ) (r : Rng)
    (hnd : G.nodes.Nodup) (k : Nat) :
    dget (stepOnce G curr beta gamma r).1 k = dget curr k ∨
      (dget curr k = some HState.I ∧
        dget (stepOnce G curr beta gamma r).1 k = some HState.R) ∨
      (dget curr k = some HState.S ∧
        dget (stepOnce G curr beta gamma r).1 k = some HState.I ∧
        ∃ v, v ∈ G.nodes ∧ k ∈ G.adj v ∧ dget curr v = some HState.I ∧
          dget (stepOnce G curr beta gamma r).1 v = some HState.I) := by
  have h := stepInv_foldNodes G curr beta gamma G.nodes (fun x hx => hx) hnd (curr, r)
    (fun _ => Or.inl rfl)
  rcases h k with h1 | ⟨h1, h2, _⟩ | ⟨h1, h2, v, hv1, hv2, _, hv4, hv5⟩
  · exact Or.inl h1
  · exact Or.inr (Or.inl ⟨h1, h2⟩)
  · exact Or.inr (Or.inr ⟨h1, h2, v, hv1, hv2, hv4, hv5⟩)

/-- C9: in every application of the stochastic step, decisions are read
from the frozen state at time `t`: an Infected node either recovers or
stays Infected (never reverts); every node newly Infected in this step has
a neighbor that was Infected in the frozen state and did **not** recover
this step (a recovering node transmits nothing, and a node infected during
step `t` cannot itself transmit during step `t`); and a Susceptible node
with no frozen-Infected neighbor stays Susceptible. -/
theorem stepOnce_frozen_semantics (G : Graph) (curr : Status) (beta gamma : ℚ)
    (r : Rng) (hnd : G.nodes.Nodup) :
    (∀ v, dget curr v = some HState.I →
        dget (stepOnce G curr beta gamma r).1 v = some HState.I ∨
          dget (stepOnce G curr beta gamma r).1 v = some HState.R) ∧
      (∀ w, dget curr w = some HState.S →
        dget (stepOnce G curr beta gamma r).1 w = some HState.I →
        ∃ v, v ∈ G.nodes ∧ w ∈ G.adj v ∧ dget curr v = some HState.I ∧
          dget (stepOnce G curr beta gamma r).1 v = some HState.I) ∧
      (∀ w, dget curr w = some HState.S →
        (∀ v, v ∈ G.nodes → w ∈ G.adj v → dget curr v ≠ some HState.I) →
        dget (stepOnce G curr beta gamma r).1 w = some HState.S) := by
  refine ⟨fun v hv => ?_, fun w hw hI => ?_, fun w hw hno => ?_⟩
  · rcases stepOnce_char G curr beta gamma r hnd v with h1 | ⟨h1, h2⟩ | ⟨h1, h2, _⟩
    · exact Or.inl (by rw [h1, hv])
    · exact Or.inr h2
    · rw [h1] at hv; exact absurd hv (by simp)
  · rcases stepOnce_char G curr beta gamma r hnd w with h1 | ⟨h1, h2⟩ | ⟨h1, h2, hex⟩
    · rw [h1, hw] at hI; exact absurd hI (by simp)
    · rw [h1] at hw; exact absurd hw (by simp)
    · exact hex
  · rcases stepOnce_char G curr beta gamma r hnd w with h1 | ⟨h1, h2⟩ | ⟨h1, h2, v, hv1, hv2, hv3, _⟩
    · rw [h1, hw]
    · rw [h1] at hw; exact absurd hw (by simp)
    · exact absurd hv3 (hno v hv1 hv2)

/-- Witness for C9: on a concrete two-node step with certain transmission
and no recovery, the Infected node 0 stays Infected or recovers. -/
theorem stepOnce_frozen_semantics_witness :
    dget (stepOnce graph2 status2 1 0 rngZero).1 0 = some HState.I ∨
      dget (stepOnce graph2 status2 1 0 rngZero).1 0 = some HState.R :=
  (stepOnce_frozen_semantics graph2 status2 1 0 rngZero (by decide)).1 0 (by decide)

/-! ### Determinism (claim C4) -/

/-- C4: `run_simulation` is a pure function of its inputs and random
source — two runs from the same graph, initial state, parameters, step
count and random source produce identical histories. -/
theorem run_simulation_deterministic (G : Graph) (s : Status) (beta gamma : ℚ)
    (n : Nat) (r1 r2 : Rng) (h : r1 = r2) :
    run_simulation G s beta gamma n r1 = run_simulation G s beta gamma n r2 := by
  rw [h]

/-- Witness for C4: determinism at a concrete run. -/
theorem run_simulation_deterministic_witness :
    rngZero = rngZero ∧
      run_simulation graph2 status2 1 0 2 rngZero
        = run_simulation graph2 status2 1 0 2 rngZero :=
  ⟨rfl, run_simulation_deterministic graph2 status2 1 0 2 rngZero rngZero rfl⟩

/-! ### Initial seeding (claims C2 and C3) -/

lemma dget_foldl_dset_I (l : List Nat) :
    ∀ (st : Status) (node : Nat),
      dget (l.foldl (fun s x => dset s x HState.I) st) node =
        if node ∈ l then some HState.I else dget st node := by
  induction l with
  | nil => intro st node; simp
  | cons x xs ih =>
    intro st node
    simp only [List.foldl_cons]
    rw [ih]
    by_cases hx : node ∈ xs
    · simp [hx]
    · by_cases hnx : node = x
      · subst hnx
        simp [hx, dget_dset_self]
      · simp [hx, hnx, dget_dset_ne st x node HState.I hnx]

lemma dget_map_S (nodes : List Nat) (node : Nat) (h : node ∈ nodes) :
    dget (nodes.map (fun x => (x, HState.S))) node = some HState.S := by
  induction nodes with
  | nil => simp at h
  | cons a rest ih =>
    simp only [List.map_cons, dget]
    by_cases ha : a = node
    · simp [ha]
    · have hmem : node ∈ rest := by
        rcases List.mem_cons.1 h with h1 | h1
        · exact absurd h1.symm ha
        · exact h1
      simp [ha, ih hmem]

lemma sampleFirst_spec (pop : List Nat) (k : Nat) (l : List Nat) (hnd : pop.Nodup)
    (h : sampleFirst pop k = some l) :
    l.Nodup ∧ l.length = k ∧ ∀ x ∈ l, x ∈ pop := by
  unfold sampleFirst at h
  by_cases hk : k ≤ pop.length
  · rw [if_pos hk] at h
    obtain rfl := (Option.some.inj h).symm
    refine ⟨hnd.sublist (List.take_sublist k pop), ?_, fun x hx => List.take_subset k pop hx⟩
    rw [List.length_take]
    exact Nat.min_eq_left hk
  · rw [if_neg hk] at h
    exact absurd h (by simp)

lemma sampleFirst_total (pop : List Nat) (k : Nat) (h : k ≤ pop.length) :
    (sampleFirst pop k).isSome := by
  unfold sampleFirst
  rw [if_pos h]
  rfl

lemma sampleFirst_none (pop : List Nat) (k : Nat) (h : pop.length < k) :
    sampleFirst pop k = none := by
  unfold sampleFirst
  rw [if_neg (by omega)]

/-- C2 (amended): for `n ≥ 1` and `init_frac ∈ [0,1]`, initialization
marks exactly `k = max(1, trunc(init_frac * n))` distinct nodes as
Infected — `trunc` is Python `int()` truncation toward zero, **not**
rounding — drawn without replacement from the node set, and every other
node starts Susceptible.  Stated for any graph generator producing nodes
`0..n-1` and any sampler with the `random.sample` contract. -/
theorem init_network_marks_truncated_count (gen : Nat → ℚ → Graph)
    (sample : List Nat → Nat → Option (List Nat)) (n : Nat) (p init_frac : ℚ)
    (hn : 1 ≤ n) (hf0 : 0 ≤ init_frac) (hf1 : init_frac ≤ 1)
    (hgen : (gen n p).nodes = List.range n)
    (hsample : ∀ pop k l, pop.Nodup → sample pop k = some l →
        l.Nodup ∧ l.length = k ∧ ∀ x ∈ l, x ∈ pop)
    (hsome : ∀ pop k, k ≤ pop.length → (sample pop k).isSome) :
    ∃ (G : Graph) (status : Status) (infected : List Nat),
      init_network gen sample n p init_frac = some (G, status) ∧
        infected.Nodup ∧
        infected.length = (max 1 (ratTrunc (init_frac * n))).toNat ∧
        (∀ x ∈ infected, x ∈ G.nodes) ∧
        ∀ node ∈ G.nodes, dget status node
          = some (if node ∈ infected then HState.I else HState.S) := by
  have hmul0 : (0:ℚ) ≤ init_frac * n := mul_nonneg hf0 (Nat.cast_nonneg n)
  have hmul : init_frac * (n:ℚ) ≤ (n:ℚ) := by
    calc init_frac * (n:ℚ) ≤ 1 * (n:ℚ) :=
          mul_le_mul_of_nonneg_right hf1 (Nat.cast_nonneg n)
      _ = (n:ℚ) := one_mul _
  have htr : ratTrunc (init_frac * n) = ⌊init_frac * (n:ℚ)⌋ := by
    unfold ratTrunc
    rw [if_pos hmul0]
  have hfl : ⌊init_frac * (n:ℚ)⌋ ≤ (n:ℤ) := by
    have h1 := Int.floor_le_floor hmul
    simpa using h1
  have hk_le : (max 1 (ratTrunc (init_frac * n))).toNat ≤ n := by
    rw [htr]
    have h2 : max 1 ⌊init_frac * (n:ℚ)⌋ ≤ (n:ℤ) := max_le (by exact_mod_cast hn) hfl
    omega
  have hlen : (gen n p).nodes.length = n := by
    rw [hgen, List.length_range]
  have hs := hsome (gen n p).nodes (max 1 (ratTrunc (init_frac * n))).toNat
    (by rw [hlen]; exact hk_le)
  obtain ⟨infected, hinf⟩ := Option.isSome_iff_exists.1 hs
  obtain ⟨hnd, hl, hsub⟩ := hsample _ _ _ (by rw [hgen]; exact List.nodup_range n) hinf
  refine ⟨gen n p,
    infected.foldl (fun st node => dset st node HState.I)
      ((gen n p).nodes.map (fun node => (node, HState.S))),
    infected, ?_, hnd, hl, hsub, ?_⟩
  · simp only [init_network, hinf]
  · intro node hnode
    rw [dget_foldl_dset_I]
    by_cases hmem : node ∈ infected
    · simp [hmem]
    · simp [hmem, dget_map_S _ _ hnode]

/-- Witness for C2 (amended): concrete initialization on 10 nodes with
`init_frac = 19/100`, using admissible concrete generator and sampler. -/
theorem init_network_marks_truncated_count_witness :
    ∃ (G : Graph) (status : Status) (infected : List Nat),
      init_network genRange sampleFirst 10 0 (19/100) = some (G, status) ∧
        infected.Nodup ∧
        infected.length = (max 1 (ratTrunc ((19:ℚ)/100 * ((10:Nat):ℚ)))).toNat ∧
        (∀ x ∈ infected, x ∈ G.nodes) ∧
        ∀ node ∈ G.nodes, dget status node
          = some (if node ∈ infected then HState.I else HState.S) :=
  init_network_marks_truncated_count genRange sampleFirst 10 0 (19/100) (by norm_num)
    (by norm_num) (by norm_num) rfl (fun pop k l => sampleFirst_spec pop k l)
    sampleFirst_total

/-- Counterexample to C2 as stated: at `n = 10`, `init_frac = 19/100` the
source marks `max(1, int(1.9)) = 1` node as Infected, while the claimed
formula `max(1, round(1.9))` gives 2. -/
theorem init_network_round_counterexample :
    Option.map (fun r => countState r.2 HState.I)
        (init_network genRange sampleFirst 10 0 (19/100)) = some 1 ∧
      max 1 (roundSpec ((19:ℚ)/100 * ((10:Nat):ℚ))) = 2 ∧ (1:Nat) ≠ 2 := by
  refine ⟨?_, ?_, by decide⟩
  · have htr : ratTrunc ((19:ℚ)/100 * ((10:Nat):ℚ)) = 1 := by
      unfold ratTrunc
      rw [if_pos (by norm_num)]
      norm_num
    have hk : (max 1 (ratTrunc ((19:ℚ)/100 * ((10:Nat):ℚ)))).toNat = 1 := by
      rw [htr]
      rfl
    simp only [init_network, hk]
    decide
  · unfold roundSpec
    norm_num

/-- C3 (amended): the source performs no `InvalidParameter` validation.
The simulation run always returns its full history, for every `beta` and
`gamma` including values outside `[0,1]`; and initialization fails —
returning no result — exactly when the requested infected count
`max(1, trunc(init_frac * n))` exceeds the population `n`, for every
`edge_probability` (which plays no role in the failure).  The failing
cases are the empty node set `n = 0` and an `init_frac` out of range far
enough that `trunc(init_frac * n) > n`; the failure site is the sampling
call, not a prior parameter check. -/
theorem network_engine_failure_modes (gen : Nat → ℚ → Graph)
    (sample : List Nat → Nat → Option (List Nat)) (n : Nat) (p init_frac : ℚ)
    (hgen : (gen n p).nodes = List.range n)
    (hsome : ∀ pop k, k ≤ pop.length → (sample pop k).isSome)
    (hnone : ∀ pop k, pop.length < k → sample pop k = none) :
    (init_network gen sample n p init_frac = none ↔
        n < (max 1 (ratTrunc (init_frac * n))).toNat) ∧
      (n = 0 → init_network gen sample n p init_frac = none) ∧
      ∀ (G : Graph) (s : Status) (beta gamma : ℚ) (m : Nat) (r : Rng),
        (run_simulation G s beta gamma m r).length = (m + 1) * 5 := by
  have hlen : (gen n p).nodes.length = n := by
    rw [hgen, List.length_range]
  have hiff : init_network gen sample n p init_frac = none ↔
      n < (max 1 (ratTrunc (init_frac * n))).toNat := by
    constructor
    · intro hfail
      by_contra hle
      push_neg at hle
      have hs := hsome (gen n p).nodes (max 1 (ratTrunc (init_frac * n))).toNat
        (by rw [hlen]; exact hle)
      obtain ⟨infected, hinf⟩ := Option.isSome_iff_exists.1 hs
      simp only [init_network, hinf] at hfail
      exact absurd hfail (by simp)
    · intro hlt
      have hn := hnone (gen n p).nodes (max 1 (ratTrunc (init_frac * n))).toNat
        (by rw [hlen]; exact hlt)
      simp only [init_network, hn]
  refine ⟨hiff, fun h0 => hiff.2 ?_, fun G s beta gamma m r => by
    rw [run_simulation, runLoop_length]⟩
  subst h0
  have h1 := le_max_left (1:ℤ) (ratTrunc (init_frac * ((0:Nat):ℚ)))
  omega

/-- Witness for C3 (amended): a concrete empty-population initialization
fails, a concrete initialization with out-of-range `init_frac = 2` on 10
nodes fails (the requested count 20 exceeds the population), and a
concrete run with `beta = gamma = 2` (outside `[0,1]`) returns a full
10-snapshot history instead of failing. -/
theorem network_engine_failure_modes_witness :
    init_network genRange sampleFirst 0 2 1 = none ∧
      init_network genRange sampleFirst 10 0 2 = none ∧
      (run_simulation graph2 status2 2 2 1 rngZero).length = (1 + 1) * 5 :=
  ⟨(network_engine_failure_modes genRange sampleFirst 0 2 1 rfl sampleFirst_total
      sampleFirst_none).2.1 rfl,
    (network_engine_failure_modes genRange sampleFirst 10 0 2 rfl sampleFirst_total
      sampleFirst_none).1.2 (by
        have htr : ratTrunc ((2:ℚ) * ((10:Nat):ℚ)) = 20 := by
          unfold ratTrunc
          rw [if_pos (by norm_num)]
          norm_num
        rw [htr]
        decide),
    (network_engine_failure_modes genRange sampleFirst 0 2 1 rfl sampleFirst_total
      sampleFirst_none).2.2 graph2 status2 2 2 1 rngZero⟩

/-- Counterexample to C3 as stated: with `edge_probability = 2` (outside
`[0,1]`) initialization succeeds, and with `beta = gamma = 2` (outside
`[0,1]`) the simulation proceeds and returns a full history — no
`InvalidParameter` failure occurs anywhere in the source. -/
theorem no_invalid_parameter_check_counterexample :
    (init_network genRange sampleFirst 10 2 0).isSome = true ∧
      (run_simulation graph2 status2 2 2 0 rngZero).length = 5 := by
  constructor
  · have htr : ratTrunc ((0:ℚ) * ((10:Nat):ℚ)) = 0 := by
      unfold ratTrunc
      rw [if_pos (by norm_num)]
      norm_num
    have hk : (max 1 (ratTrunc ((0:ℚ) * ((10:Nat):ℚ)))).toNat = 1 := by
      rw [htr]
      rfl
    simp only [init_network, hk]
    decide
  · rw [run_simulation, runLoop_length]
